import Mathlib

/-!
Verification of `kafka_consumer.py` (ytram99/kafka-splunk-consumer).

The file shallowly embeds the consumer core: the `sendToSplunk` method,
the retry wrapper invoked by `consume`, the accumulate/dispatch loop of
`consume`, the retry/backoff schedule, and the `main` worker launcher.
Record payloads are modelled as natural numbers (the code treats them as
opaque `m.value` payloads), HTTP status codes as natural numbers, and the
responses of the Splunk HEC endpoint as an oracle mapping the index of a
`writeToHec` call to the status code it returns.  Observable side effects
(consumer acquisition, `writeToHec` calls, `commit_offsets`, consumer
stops) are recorded in an action trace.
-/

/-- Observable actions performed by the consumer, in program order:
acquiring a balanced consumer (`getConsumer`), a `writeToHec` call with
the batch it was passed and the status code it returned, an offset commit
(`commit_offsets`) and a consumer stop (`consumer.stop`). -/
inductive KAct where
  | acquire : KAct
  | send (batch : List Nat) (status : Nat) : KAct
  | commit : KAct
  | stop : KAct
deriving DecidableEq, Repr

/-- State of a `kafkaConsumer` instance as far as the core loop reads or
writes it: the `self.messages` buffer, the `self.consumer_started` flag,
the number of `writeToHec` calls already made (used to index the response
oracle) and the trace of observable actions so far. -/
structure CState where
  messages : List Nat
  consumer_started : Bool
  sends : Nat
  trace : List KAct
deriving DecidableEq, Repr

/-- The `sendToSplunk` method (kafka_consumer.py lines 145-180).
If the consumer is marked down it is re-acquired (`getConsumer` sets
`consumer_started`).  The current `self.messages` buffer is passed to
`splunk_hec.writeToHec`; the oracle supplies the status code of this
call.  The buffer is then cleared unconditionally.  On status 200 the
offsets are committed and the method returns normally (`true`); on any
other status the consumer is stopped, marked down, and an exception is
raised (`false`). -/
def sendToSplunk (oracle : Nat → Nat) (s : CState) : CState × Bool :=
  let s1 : CState :=
    if s.consumer_started then s
    else { s with consumer_started := true, trace := s.trace ++ [KAct.acquire] }
  let status := oracle s1.sends
  let s2 : CState :=
    { s1 with sends := s1.sends + 1, trace := s1.trace ++ [KAct.send s1.messages status] }
  let s3 : CState := { s2 with messages := [] }
  if status = 200 then
    ({ s3 with trace := s3.trace ++ [KAct.commit] }, true)
  else
    ({ s3 with consumer_started := false, trace := s3.trace ++ [KAct.stop] }, false)

/-- The retry wrapper around `sendToSplunk` as invoked in `consume`
(kafka_consumer.py lines 206-213, `redo.retry` with
`retry_exceptions=(Exception,)`): call `sendToSplunk`; on success return;
on an exception, re-raise it if this was the last of `attempts` calls and
otherwise try again.  `true` means the retry call returned normally,
`false` that the final exception propagated. -/
def retrySend (oracle : Nat → Nat) : Nat → CState → CState × Bool
  | 0, s => (s, false)
  | 1, s => sendToSplunk oracle s
  | n + 2, s =>
      match sendToSplunk oracle s with
      | (s1, true) => (s1, true)
      | (s1, false) => retrySend oracle (n + 1) s1

/-- The body of the `while(True)` loop of `consume` (kafka_consumer.py
lines 198-213), run over a finite prefix of the record stream.  Each
iteration consumes one record `m`; if `len(self.messages) <= batch_size`
its payload is appended to the buffer, otherwise the batch is dispatched
through the retry wrapper (note: `m` itself is neither appended nor part
of the dispatched batch).  An exception escaping the retry wrapper ends
the loop (`false`); exhausting the supplied record prefix leaves the
worker alive (`true`). -/
def consumeRun (oracle : Nat → Nat) (batch_size attempts : Nat) :
    List Nat → CState → CState × Bool
  | [], s => (s, true)
  | m :: ms, s =>
      if s.messages.length ≤ batch_size then
        consumeRun oracle batch_size attempts ms { s with messages := s.messages ++ [m] }
      else
        match retrySend oracle attempts s with
        | (s1, true) => consumeRun oracle batch_size attempts ms s1
        | (s1, false) => (s1, false)

/-- The state at the top of `consume` (kafka_consumer.py line 189): the
buffer is empty and the balanced consumer has just been acquired. -/
def initState : CState :=
  { messages := [], consumer_started := true, sends := 0, trace := [KAct.acquire] }

/-- The list of batches passed to `writeToHec` along a trace, in call
order. -/
def sentBatches : List KAct → List (List Nat)
  | [] => []
  | KAct.send b _ :: tr => b :: sentBatches tr
  | _ :: tr => sentBatches tr

/-- The payloads contained in batches whose `writeToHec` call returned
status 200 (i.e. the data actually accepted by the endpoint) along a
trace. -/
def acceptedPayloads : List KAct → List Nat
  | [] => []
  | KAct.send b 200 :: tr => b ++ acceptedPayloads tr
  | _ :: tr => acceptedPayloads tr

/-- The payloads contained in any batch passed to `writeToHec` along a
trace, accepted or not. -/
def sentPayloads : List KAct → List Nat
  | [] => []
  | KAct.send b _ :: tr => b ++ sentPayloads tr
  | _ :: tr => sentPayloads tr

/-- An endpoint that accepts every `writeToHec` call. -/
def okOracle : Nat → Nat := fun _ => 200

/-- An endpoint that rejects every `writeToHec` call with a 500. -/
def failOracle : Nat → Nat := fun _ => 500

/-- An endpoint that rejects the first `writeToHec` call with a 500 and
accepts every later one. -/
def flipOracle : Nat → Nat := fun k => if k = 0 then 500 else 200

/-- Modelled from the spec: the RetryScheduler algorithm of spec §4.3.
The retry/backoff implementation invoked at kafka_consumer.py lines
206-213 lives in the external `redo` library, which is not part of the
repository sources; only its call site is.  Following the spec's
algorithm: start at attempt 1 with `sleep = base_sleep`; invoke the
delivery (`accept k` tells whether the k-th invocation, 0-indexed, is
Accepted); on Accepted return success immediately; on Rejected at the
final attempt return terminal failure; otherwise sleep
`min(sleep, max_sleep) + jitter` clamped to ≥ 0 (`jit k` is the jitter
drawn before the k-th retry sleep), multiply `sleep` by `scale_factor`
and repeat.  Arguments of the recursion: remaining attempts, index of the
next invocation, current `sleep`.  Returns the number of delivery
invocations performed, whether the operation succeeded, and the list of
sleep durations in order. -/
def retrySchedAux (accept : Nat → Bool) (jit : Nat → ℚ) (maxSleep scale : ℚ) :
    Nat → Nat → ℚ → Nat × Bool × List ℚ
  | 0, _, _ => (0, false, [])
  | rest + 1, k, sleep =>
      if accept k then (1, true, [])
      else if rest = 0 then (1, false, [])
      else
        let d := max (min sleep maxSleep + jit k) 0
        let r := retrySchedAux accept jit maxSleep scale rest (k + 1) (sleep * scale)
        (r.1 + 1, r.2.1, d :: r.2.2)

/-- Modelled from the spec: the RetryScheduler entry point (spec §4.3),
executing a fallible delivery up to `attempts` times starting from
`sleep = base_sleep`. -/
def retryScheduler (accept : Nat → Bool) (jit : Nat → ℚ) (attempts : Nat)
    (baseSleep maxSleep scale : ℚ) : Nat × Bool × List ℚ :=
  retrySchedAux accept jit maxSleep scale attempts 0 baseSleep

/-- One launched worker process: its number `i` (the loop index that also
names it `worker-i`) and the parsed configuration it is constructed from.
The configuration type is kept abstract. -/
inductive PEvent (C : Type) where
  | start (i : Nat) (cfg : C) : PEvent C
  | join (i : Nat) : PEvent C
deriving DecidableEq, Repr

/-- The `main` function (kafka_consumer.py lines 257-271) after config
parsing, as its trace of process events: for each `i` in
`range(num_workers)` a process is created with arguments `(i, config)`
and started, appended to the global `jobs` list; then every process in
`jobs` is joined, in launch order.  No event ever re-starts a worker. -/
def mainRun {C : Type} (num_workers : Nat) (config : C) : List (PEvent C) :=
  ((List.range num_workers).map (fun i => PEvent.start i config)) ++
    ((List.range num_workers).map (fun i => PEvent.join i))

/-- The worker launches contained in a process-event trace: the worker
number and the configuration each started process was constructed from,
in launch order. -/
def startEvents {C : Type} : List (PEvent C) → List (Nat × C)
  | [] => []
  | PEvent.start i cfg :: tr => (i, cfg) :: startEvents tr
  | PEvent.join _ :: tr => startEvents tr

/-- The worker numbers joined along a process-event trace, in join
order. -/
def joinIds {C : Type} : List (PEvent C) → List Nat
  | [] => []
  | PEvent.start _ _ :: tr => joinIds tr
  | PEvent.join i :: tr => i :: joinIds tr
/-- State of a `kafkaConsumer` instance extended with the offset
semantics of the balanced consumer (pykafka): records are identified by
their position in the topic (offset order), `sessionPos` is the position
of the next record the current balanced-consumer instance will deliver,
and `committedPos` is the durably committed consumption position —
exactly the positions `p < committedPos` have their offsets committed
(spec §6: all durable progress lives in the log system as committed
offsets).  `commit_offsets` commits the positions of the records the
current consumer instance has delivered so far, i.e. sets `committedPos`
to `sessionPos`; a freshly acquired consumer resumes from the last
committed offset, i.e. `getConsumer` resets `sessionPos` to
`committedPos`, so records consumed by a stopped session whose offsets
were never committed are redelivered (spec §4.3: a future re-acquire
redelivers unacknowledged records).  `log` records every `writeToHec`
call as the list of record positions in the batch together with the
returned status code. -/
structure OState where
  messages : List Nat
  consumer_started : Bool
  sends : Nat
  sessionPos : Nat
  committedPos : Nat
  log : List (List Nat × Nat)
deriving DecidableEq, Repr

/-- The `sendToSplunk` method (kafka_consumer.py lines 145-180) over the
offset-aware state: re-acquire the consumer if it is marked down (the
fresh instance resumes from `committedPos`), pass `self.messages` to
`writeToHec` (logged with the status the oracle returns for this call),
clear the buffer, then on status 200 commit the current session position
and return normally; on any other status stop the consumer, mark it down
and raise. -/
def sendToSplunkO (oracle : Nat → Nat) (s : OState) : OState × Bool :=
  let s1 : OState :=
    if s.consumer_started then s
    else { s with consumer_started := true, sessionPos := s.committedPos }
  let status := oracle s1.sends
  let s2 : OState :=
    { s1 with sends := s1.sends + 1, log := s1.log ++ [(s1.messages, status)] }
  let s3 : OState := { s2 with messages := [] }
  if status = 200 then
    ({ s3 with committedPos := s3.sessionPos }, true)
  else
    ({ s3 with consumer_started := false }, false)

/-- The retry wrapper around `sendToSplunk` (kafka_consumer.py lines
206-213) over the offset-aware state, with the same shape as
`retrySend`. -/
def retrySendO (oracle : Nat → Nat) : Nat → OState → OState × Bool
  | 0, s => (s, false)
  | 1, s => sendToSplunkO oracle s
  | n + 2, s =>
      match sendToSplunkO oracle s with
      | (s1, true) => (s1, true)
      | (s1, false) => retrySendO oracle (n + 1) s1

/-- The `while(True)` loop of `consume` (kafka_consumer.py lines
198-213) over the offset-aware state, run for `fuel` iterations.  Each
iteration's `consumer.consume()` delivers the record at `sessionPos` and
advances the session position; the record's payload plays no role in the
offset-commit claim, so the buffered value is the record's position.
As in `consumeRun`, the just-consumed record is appended only in the
`len(self.messages) <= batch_size` branch and is dropped on a dispatch
iteration. -/
def consumeRunO (oracle : Nat → Nat) (batch_size attempts : Nat) :
    Nat → OState → OState × Bool
  | 0, s => (s, true)
  | fuel + 1, s =>
      let m := s.sessionPos
      let s0 : OState := { s with sessionPos := m + 1 }
      if s0.messages.length ≤ batch_size then
        consumeRunO oracle batch_size attempts fuel
          { s0 with messages := s0.messages ++ [m] }
      else
        match retrySendO oracle attempts s0 with
        | (s1, true) => consumeRunO oracle batch_size attempts fuel s1
        | (s1, false) => (s1, false)

/-- The offset-aware state at the top of `consume` (kafka_consumer.py
line 189): empty buffer, consumer acquired, nothing consumed or
committed yet. -/
def initOState : OState :=
  { messages := [], consumer_started := true, sends := 0,
    sessionPos := 0, committedPos := 0, log := [] }

/-- The record position `p` was part of a batch whose `writeToHec` call
returned status 200 — its data was accepted by the endpoint. -/
def inAccepted (lg : List (List Nat × Nat)) (p : Nat) : Prop :=
  ∃ B, (B, 200) ∈ lg ∧ p ∈ B

/-- The record position `p` was part of a batch whose `writeToHec` call
returned a non-200 status — a rejected send attempt for its batch. -/
def inRejected (lg : List (List Nat × Nat)) (p : Nat) : Prop :=
  ∃ B σ, (B, σ) ∈ lg ∧ σ ≠ 200 ∧ p ∈ B

/-- The offset-safety property of a send log relative to the committed
position `c` and batch size `N`: every committed position that was ever
in a rejected batch is also in an accepted batch, and every rejected
batch is either entirely accepted by now or is exactly the current
cycle's full batch `range' c (N+1)` (whose positions are all still
uncommitted). -/
def goodLog (lg : List (List Nat × Nat)) (c N : Nat) : Prop :=
  (∀ p, p < c → inRejected lg p → inAccepted lg p) ∧
  (∀ B σ, (B, σ) ∈ lg → σ ≠ 200 →
    (∀ p ∈ B, inAccepted lg p) ∨ B = List.range' c (N + 1))

/-- The invariant holding at the top of every iteration of the consume
loop: the consumer is up, the buffer holds exactly the consecutive
record positions from `committedPos` up to `sessionPos` (at most
`batch_size + 1` of them), and the send log is offset-safe. -/
def loopInv (N : Nat) (s : OState) : Prop :=
  s.consumer_started = true ∧
  s.messages = List.range' s.committedPos (s.sessionPos - s.committedPos) ∧
  s.committedPos ≤ s.sessionPos ∧
  s.sessionPos - s.committedPos ≤ N + 1 ∧
  goodLog s.log s.committedPos N

/-- The state shape between failed retry attempts: the consumer is
stopped and marked down, the buffer was cleared before the exception was
raised, and the send log is offset-safe. -/
def downInv (N : Nat) (s : OState) : Prop :=
  s.consumer_started = false ∧ s.messages = [] ∧
  goodLog s.log s.committedPos N

/-! Helper lemmas about the trace observations and about `sendToSplunk`
and `retrySend`, shared by the claim theorems below. -/

theorem sentBatches_append (t1 t2 : List KAct) :
    sentBatches (t1 ++ t2) = sentBatches t1 ++ sentBatches t2 := by
  induction t1 with
  | nil => rfl
  | cons a t ih => cases a <;> simp [sentBatches, ih]

theorem sendToSplunk_spec (oracle : Nat → Nat) (s : CState) :
    ((sendToSplunk oracle s).1).messages = [] ∧
    sentBatches ((sendToSplunk oracle s).1).trace =
      sentBatches s.trace ++ [s.messages] ∧
    ((sendToSplunk oracle s).2 = false →
      ((sendToSplunk oracle s).1).consumer_started = false) := by
  unfold sendToSplunk
  dsimp only
  split <;> split <;> simp [sentBatches_append, sentBatches]

theorem retrySend_messages (oracle : Nat → Nat) :
    ∀ (att : Nat) (s : CState), 1 ≤ att →
      ((retrySend oracle att s).1).messages = []
  | 0, _, h => absurd h (by decide)
  | 1, s, _ => (sendToSplunk_spec oracle s).1
  | n + 2, s, _ => by
      rcases h1 : sendToSplunk oracle s with ⟨s1, b⟩
      cases b with
      | true =>
          have he : retrySend oracle (n + 2) s = (s1, true) := by
            simp [retrySend, h1]
          rw [he]
          have := (sendToSplunk_spec oracle s).1
          rw [h1] at this
          exact this
      | false =>
          have he : retrySend oracle (n + 2) s = retrySend oracle (n + 1) s1 := by
            simp [retrySend, h1]
          rw [he]
          exact retrySend_messages oracle (n + 1) s1 (by omega)

theorem retrySend_started (oracle : Nat → Nat) :
    ∀ (att : Nat) (s s1 : CState), 1 ≤ att →
      retrySend oracle att s = (s1, false) → s1.consumer_started = false
  | 0, _, _, h, _ => absurd h (by decide)
  | 1, s, s1, _, h => by
      have := (sendToSplunk_spec oracle s).2.2
      rw [show retrySend oracle 1 s = sendToSplunk oracle s from rfl] at h
      rw [h] at this
      exact this rfl
  | n + 2, s, s1, _, h => by
      rcases h1 : sendToSplunk oracle s with ⟨s2, b⟩
      cases b with
      | true =>
          have he : retrySend oracle (n + 2) s = (s2, true) := by
            simp [retrySend, h1]
          rw [he] at h
          exact absurd (congrArg Prod.snd h) (by simp)
      | false =>
          have he : retrySend oracle (n + 2) s = retrySend oracle (n + 1) s2 := by
            simp [retrySend, h1]
          rw [he] at h
          exact retrySend_started oracle (n + 1) s2 s1 (by omega) h

theorem retrySend_sentBatches (oracle : Nat → Nat) :
    ∀ (att : Nat) (s : CState),
      ∀ b ∈ sentBatches ((retrySend oracle att s).1).trace,
        b ∈ sentBatches s.trace ∨ b = s.messages ∨ b = []
  | 0, s => fun b hb => Or.inl hb
  | 1, s => by
      intro b hb
      rw [show retrySend oracle 1 s = sendToSplunk oracle s from rfl,
        (sendToSplunk_spec oracle s).2.1] at hb
      rcases List.mem_append.mp hb with h | h
      · exact Or.inl h
      · exact Or.inr (Or.inl (by simpa using h))
  | n + 2, s => by
      intro b hb
      rcases h1 : sendToSplunk oracle s with ⟨s1, c⟩
      cases c with
      | true =>
          have he : retrySend oracle (n + 2) s = (s1, true) := by
            simp [retrySend, h1]
          rw [he] at hb
          have hs := (sendToSplunk_spec oracle s).2.1
          rw [h1] at hs
          rw [show ((s1, true) : CState × Bool).1 = s1 from rfl] at hb
          rw [hs] at hb
          rcases List.mem_append.mp hb with h | h
          · exact Or.inl h
          · exact Or.inr (Or.inl (by simpa using h))
      | false =>
          have he : retrySend oracle (n + 2) s = retrySend oracle (n + 1) s1 := by
            simp [retrySend, h1]
          rw [he] at hb
          have hs := (sendToSplunk_spec oracle s).2.1
          have hm := (sendToSplunk_spec oracle s).1
          rw [h1] at hs hm
          rcases retrySend_sentBatches oracle (n + 1) s1 b hb with h | h | h
          · rw [hs] at h
            rcases List.mem_append.mp h with h2 | h2
            · exact Or.inl h2
            · exact Or.inr (Or.inl (by simpa using h2))
          · rw [hm] at h
            exact Or.inr (Or.inr h)
          · exact Or.inr (Or.inr h)

/-- C2 counterexample: the claim states the consume loop dispatches a
delivery instead of appending exactly when the buffer holds at least
`batch_size` records.  With `batch_size = 1` and the buffer already
holding the single record 7 (so at least `batch_size` records), the next
loop iteration still appends record 99 (the buffer becomes `[7, 99]`) and
performs no `writeToHec` call, refuting the claim. -/
theorem C2_counterexample_append_at_threshold :
    consumeRun okOracle 1 5 [99]
        { messages := [7], consumer_started := true, sends := 0, trace := [] } =
      ({ messages := [7, 99], consumer_started := true, sends := 0, trace := [] }, true) := by
  decide

/-- C2 (amended): with `batch_size = N`, the consume loop dispatches a
delivery instead of appending exactly when the buffer holds at least
`N + 1` records (the source appends while `len(self.messages) <= N`);
when it dispatches, the batch passed to the `writeToHec` call contains
all buffered records in original consumption order (the list of sent
batches grows by exactly `s.messages`), and the accumulator is empty
immediately afterwards. -/
theorem C2_amended_full_threshold (oracle : Nat → Nat) (N att : Nat)
    (s : CState) (m : Nat) (ms : List Nat) :
    (s.messages.length ≤ N →
      consumeRun oracle N att (m :: ms) s =
        consumeRun oracle N att ms { s with messages := s.messages ++ [m] }) ∧
    (N < s.messages.length →
      sentBatches ((sendToSplunk oracle s).1).trace =
        sentBatches s.trace ++ [s.messages] ∧
      ((sendToSplunk oracle s).1).messages = []) := by
  constructor
  · intro h
    simp [consumeRun, h]
  · intro _
    exact ⟨(sendToSplunk_spec oracle s).2.1, (sendToSplunk_spec oracle s).1⟩

/-- C2 (amended) witness: the two sides of the amended claim at concrete
inputs.  With `batch_size = 1` and two records buffered, the dispatched
`writeToHec` call is passed the whole buffer `[5, 6]` in order and the
buffer is empty afterwards; with one record buffered, the loop appends. -/
theorem C2_amended_full_threshold_witness :
    (consumeRun okOracle 1 5 [99]
        { messages := [7], consumer_started := true, sends := 0, trace := [] } =
      consumeRun okOracle 1 5 []
        { messages := [7, 99], consumer_started := true, sends := 0, trace := [] }) ∧
    (sentBatches ((sendToSplunk okOracle
        { messages := [5, 6], consumer_started := true, sends := 0, trace := [] }).1).trace =
      [[5, 6]] ∧
    ((sendToSplunk okOracle
        { messages := [5, 6], consumer_started := true, sends := 0, trace := [] }).1).messages =
      []) := by
  constructor
  · exact (C2_amended_full_threshold okOracle 1 5
      { messages := [7], consumer_started := true, sends := 0, trace := [] } 99 []).1
      (by decide)
  · have h := (C2_amended_full_threshold okOracle 1 5
      { messages := [5, 6], consumer_started := true, sends := 0, trace := [] } 99 []).2
      (by decide)
    simpa using h

/-- C3: the claim states every retry attempt re-sends the same
already-buffered batch contents as the first attempt.  The code violates
it: `sendToSplunk` clears `self.messages` before raising, so with the
batch `[7]` buffered, `retry_attempts = 2` and an endpoint that rejects
everything, the first attempt passes `[7]` to `writeToHec` but the second
attempt passes `[]`.  This theorem evaluates the code on that execution:
the sent batches are `[7]` then `[]`, and the retry call raises. -/
theorem C3_retry_resends_empty_batch :
    sentBatches (retrySend failOracle 2
        { messages := [7], consumer_started := true, sends := 0, trace := [] }).1.trace =
      [[7], []] ∧
    (retrySend failOracle 2
        { messages := [7], consumer_started := true, sends := 0, trace := [] }).2 = false := by
  decide

/-- C4: the claim states no loop iteration discards the just-consumed
record.  The code violates it: on the iteration whose length check
triggers delivery, the record consumed at the top of that iteration is
neither appended nor delivered.  With `batch_size = 1`, records
10, 20, 30 and an always-accepting endpoint, the third iteration
dispatches the batch `[10, 20]` and drops record 30: after the run, 30
is not in the buffer and was never passed to any `writeToHec` call. -/
theorem C4_dispatch_iteration_drops_record :
    (consumeRun okOracle 1 5 [10, 20, 30] initState).2 = true ∧
    (consumeRun okOracle 1 5 [10, 20, 30] initState).1.messages = [] ∧
    sentPayloads (consumeRun okOracle 1 5 [10, 20, 30] initState).1.trace = [10, 20] ∧
    30 ∉ sentPayloads (consumeRun okOracle 1 5 [10, 20, 30] initState).1.trace := by
  decide

/-- C5 counterexample: the claim states that after terminal retry failure
the session is re-acquired and the worker terminates only if that
re-acquisition fails.  In the code the exception re-raised by the retry
wrapper propagates out of the `while` loop of `consume` and out of
`worker`, so the worker terminates unconditionally.  With
`batch_size = 0`, `retry_attempts = 1` and an endpoint rejecting every
call, consuming records 1 then 2 ends the run with the propagated
failure (second component `false`), although consumer acquisition never
fails in this model. -/
theorem C5_counterexample_worker_dies :
    consumeRun failOracle 0 1 [1, 2] initState =
      ({ messages := [], consumer_started := false, sends := 1,
         trace := [KAct.acquire, KAct.send [1] 500, KAct.stop] }, false) := by
  decide

/-- C5 (amended): retry exhaustion is fatal to the worker.  If the retry
wrapper around `sendToSplunk` ends with the final exception (result
`false`, possible only with at least one attempt), the `consume` loop
ends immediately with that exception propagating (the worker process
terminates), and the consumer session has been stopped and marked down
(`consumer_started = false`) beforehand; re-acquisition happens only at
the start of the individual retry attempts, never after exhaustion. -/
theorem C5_amended_retry_exhaustion_fatal (oracle : Nat → Nat) (N att : Nat)
    (s s1 : CState) (m : Nat) (ms : List Nat) (h1 : 1 ≤ att)
    (h2 : N < s.messages.length) (h3 : retrySend oracle att s = (s1, false)) :
    consumeRun oracle N att (m :: ms) s = (s1, false) ∧
    s1.consumer_started = false := by
  constructor
  · simp [consumeRun, Nat.not_le.mpr h2, h3]
  · exact retrySend_started oracle att s s1 h1 h3

/-- C5 (amended) witness: with `batch_size = 0`, one retry attempt and an
always-rejecting endpoint, a dispatch from the buffer `[1]` terminates
the worker with the session marked down. -/
theorem C5_amended_retry_exhaustion_fatal_witness :
    consumeRun failOracle 0 1 [2]
        { messages := [1], consumer_started := true, sends := 0, trace := [KAct.acquire] } =
      ({ messages := [], consumer_started := false, sends := 1,
         trace := [KAct.acquire, KAct.send [1] 500, KAct.stop] }, false) ∧
    ({ messages := ([] : List Nat), consumer_started := false, sends := 1,
       trace := [KAct.acquire, KAct.send [1] 500, KAct.stop] } : CState).consumer_started =
      false := by
  exact C5_amended_retry_exhaustion_fatal failOracle 0 1
    { messages := [1], consumer_started := true, sends := 0, trace := [KAct.acquire] }
    { messages := [], consumer_started := false, sends := 1,
      trace := [KAct.acquire, KAct.send [1] 500, KAct.stop] }
    2 [] (by decide) (by decide) (by decide)

/-- C6: the message buffer is cleared by every `sendToSplunk` call
regardless of the outcome: whatever status code `writeToHec` returns,
the state in which `sendToSplunk` returns or raises has
`self.messages = []`; a failed batch's payloads are not retained in the
accumulator. -/
theorem C6_buffer_cleared_after_send (oracle : Nat → Nat) (s : CState) :
    ((sendToSplunk oracle s).1).messages = [] :=
  (sendToSplunk_spec oracle s).1

/-! Lemmas about the spec-modelled RetryScheduler. -/

theorem retrySchedAux_step (accept : Nat → Bool) (jit : Nat → ℚ) (m sc : ℚ)
    (rest k : Nat) (sleep : ℚ) (h0 : accept k = false) (hr : rest ≠ 0) :
    retrySchedAux accept jit m sc (rest + 1) k sleep =
      ((retrySchedAux accept jit m sc rest (k + 1) (sleep * sc)).1 + 1,
       (retrySchedAux accept jit m sc rest (k + 1) (sleep * sc)).2.1,
       max (min sleep m + jit k) 0 ::
         (retrySchedAux accept jit m sc rest (k + 1) (sleep * sc)).2.2) := by
  conv_lhs => rw [retrySchedAux]
  simp [h0, hr]

theorem retrySchedAux_allFail (accept : Nat → Bool) (jit : Nat → ℚ) (m sc : ℚ)
    (hacc : ∀ k, accept k = false) :
    ∀ (rest k : Nat) (sleep : ℚ), 1 ≤ rest →
      (retrySchedAux accept jit m sc rest k sleep).1 = rest ∧
      (retrySchedAux accept jit m sc rest k sleep).2.1 = false
  | 0, _, _, h => absurd h (by decide)
  | 1, k, sleep, _ => by simp [retrySchedAux, hacc k]
  | rest + 2, k, sleep, _ => by
      have ih := retrySchedAux_allFail accept jit m sc hacc (rest + 1) (k + 1)
        (sleep * sc) (by omega)
      rw [retrySchedAux_step accept jit m sc (rest + 1) k sleep (hacc k) (by omega)]
      exact ⟨by simp [ih.1], by simp [ih.2]⟩

theorem retrySchedAux_success (accept : Nat → Bool) (jit : Nat → ℚ) (m sc : ℚ) :
    ∀ (j rest k : Nat) (sleep : ℚ), j < rest →
      (∀ i, i < j → accept (k + i) = false) → accept (k + j) = true →
      (retrySchedAux accept jit m sc rest k sleep).1 = j + 1 ∧
      (retrySchedAux accept jit m sc rest k sleep).2.1 = true ∧
      (retrySchedAux accept jit m sc rest k sleep).2.2.length = j
  | 0, rest, k, sleep, hlt, _, hacc => by
      cases rest with
      | zero => omega
      | succ r =>
          have h0 : accept k = true := by simpa using hacc
          simp [retrySchedAux, h0]
  | j + 1, rest, k, sleep, hlt, hfail, hacc => by
      cases rest with
      | zero => omega
      | succ r =>
          have h0 : accept k = false := by simpa using hfail 0 (by omega)
          have hr : r ≠ 0 := by omega
          have ih := retrySchedAux_success accept jit m sc j r (k + 1) (sleep * sc)
            (by omega)
            (fun i hi => by
              have hx := hfail (i + 1) (by omega)
              rw [show k + (i + 1) = k + 1 + i from by omega] at hx
              exact hx)
            (by
              have hx := hacc
              rw [show k + (j + 1) = k + 1 + j from by omega] at hx
              exact hx)
          simp [retrySchedAux, h0, hr, ih.1, ih.2.1, ih.2.2]

theorem retrySchedAux_sleeps (m sc : ℚ) (hm : 0 ≤ m) (hsc : 1 ≤ sc) :
    ∀ (rest k : Nat) (sleep : ℚ), 0 ≤ sleep →
      (retrySchedAux (fun _ => false) (fun _ => 0) m sc rest k sleep).2.2 =
        (List.range (rest - 1)).map (fun i => min (sleep * sc ^ i) m)
  | 0, k, sleep, hs => by simp [retrySchedAux]
  | 1, k, sleep, hs => by simp [retrySchedAux]
  | rest + 2, k, sleep, hs => by
      have ih := retrySchedAux_sleeps m sc hm hsc (rest + 1) (k + 1) (sleep * sc)
        (mul_nonneg hs (le_trans zero_le_one hsc))
      rw [retrySchedAux_step (fun _ => false) (fun _ => 0) m sc (rest + 1) k sleep
        rfl (by omega)]
      dsimp only
      rw [ih]
      rw [show rest + 2 - 1 = rest + 1 from rfl,
        show rest + 1 - 1 = rest from rfl, List.range_succ_eq_map,
        List.map_cons, List.map_map]
      congr 1
      · rw [pow_zero, mul_one, add_zero, max_eq_left (le_min hs hm)]
      · apply List.map_congr_left
        intro i _
        simp only [Function.comp]
        congr 1
        rw [pow_succ]
        ring

/-- C7: for the retry wrapper with `attempts = A` (spec-modelled
RetryScheduler, since the `redo` implementation is outside the repository
sources): against a delivery that rejects every attempt, exactly A
delivery invocations occur and terminal failure is reported; against one
that first accepts on invocation `j` (0-indexed, so the `j + 1`-st
attempt, with `j < A`), exactly `j + 1` invocations occur, success is
reported, and exactly `j` sleeps occur — none after the accepting
attempt. -/
theorem C7_retry_attempt_counts (accept : Nat → Bool) (jit : Nat → ℚ) (A : Nat)
    (b m sc : ℚ) (hA : 1 ≤ A) :
    ((∀ k, accept k = false) →
      (retryScheduler accept jit A b m sc).1 = A ∧
      (retryScheduler accept jit A b m sc).2.1 = false) ∧
    (∀ j, j < A → (∀ i, i < j → accept i = false) → accept j = true →
      (retryScheduler accept jit A b m sc).1 = j + 1 ∧
      (retryScheduler accept jit A b m sc).2.1 = true ∧
      (retryScheduler accept jit A b m sc).2.2.length = j) := by
  constructor
  · intro hacc
    exact retrySchedAux_allFail accept jit m sc hacc A 0 b hA
  · intro j hj hfail hacc
    exact retrySchedAux_success accept jit m sc j A 0 b hj
      (fun i hi => by simpa using hfail i hi) (by simpa using hacc)

/-- C7 witness: with `attempts = 3`, an always-rejecting delivery gives
exactly 3 invocations and terminal failure; a delivery accepting on the
second invocation gives exactly 2 invocations, success, and one sleep. -/
theorem C7_retry_attempt_counts_witness :
    ((retryScheduler (fun _ => false) (fun _ => 0) 3 1 5 2).1 = 3 ∧
     (retryScheduler (fun _ => false) (fun _ => 0) 3 1 5 2).2.1 = false) ∧
    ((retryScheduler (fun k => k == 1) (fun _ => 0) 3 1 5 2).1 = 2 ∧
     (retryScheduler (fun k => k == 1) (fun _ => 0) 3 1 5 2).2.1 = true ∧
     (retryScheduler (fun k => k == 1) (fun _ => 0) 3 1 5 2).2.2.length = 1) := by
  constructor
  · exact (C7_retry_attempt_counts (fun _ => false) (fun _ => 0) 3 1 5 2
      (by decide)).1 (fun k => rfl)
  · exact (C7_retry_attempt_counts (fun k => k == 1) (fun _ => 0) 3 1 5 2
      (by decide)).2 1 (by decide)
      (fun i hi => by
        have h0 : i = 0 := by omega
        subst h0
        rfl) rfl

/-- C8: for the spec-modelled retry schedule with `base_sleep = b ≥ 0`,
`max_sleep = m ≥ 0`, `scale_factor = sc > 1` and zero jitter, the k-th
retry sleep (1-indexed: index `k - 1` of the sleep list) equals
`min(b·sc^(k-1), m)`; the sleep sequence is non-decreasing and bounded
above by m. -/
theorem C8_backoff_monotone_bounded (b m sc : ℚ) (A : Nat)
    (hb : 0 ≤ b) (hm : 0 ≤ m) (hsc : 1 < sc) :
    (retryScheduler (fun _ => false) (fun _ => 0) A b m sc).2.2 =
      (List.range (A - 1)).map (fun i => min (b * sc ^ i) m) ∧
    List.Chain' (fun x y : ℚ => x ≤ y)
      ((retryScheduler (fun _ => false) (fun _ => 0) A b m sc).2.2) ∧
    ∀ x ∈ (retryScheduler (fun _ => false) (fun _ => 0) A b m sc).2.2, x ≤ m := by
  have heq : (retryScheduler (fun _ => false) (fun _ => 0) A b m sc).2.2 =
      (List.range (A - 1)).map (fun i => min (b * sc ^ i) m) :=
    retrySchedAux_sleeps m sc hm (le_of_lt hsc) A 0 b hb
  refine ⟨heq, ?_, ?_⟩
  · rw [heq]
    cases hA : A - 1 with
    | zero => simp
    | succ n =>
        rw [List.chain'_map]
        refine (List.chain'_range_succ _ n).2 ?_
        intro i _
        exact min_le_min (mul_le_mul_of_nonneg_left
          (pow_le_pow_right₀ (le_of_lt hsc) (Nat.le_succ i)) hb) le_rfl
  · rw [heq]
    intro x hx
    rcases List.mem_map.mp hx with ⟨i, _, rfl⟩
    exact min_le_right _ _

/-- C8 witness: with `base_sleep = 1`, `max_sleep = 5`,
`scale_factor = 2` and 4 attempts, the three retry sleeps are
`min(2^k, 5)` for k = 0, 1, 2, non-decreasing and bounded by 5. -/
theorem C8_backoff_monotone_bounded_witness :
    (retryScheduler (fun _ => false) (fun _ => 0) 4 1 5 2).2.2 =
      (List.range (4 - 1)).map (fun i => min ((1 : ℚ) * 2 ^ i) 5) ∧
    List.Chain' (fun x y : ℚ => x ≤ y)
      ((retryScheduler (fun _ => false) (fun _ => 0) 4 1 5 2).2.2) ∧
    ∀ x ∈ (retryScheduler (fun _ => false) (fun _ => 0) 4 1 5 2).2.2, x ≤ 5 :=
  C8_backoff_monotone_bounded 1 5 2 4 (by norm_num) (by norm_num) (by norm_num)

/-! Lemmas about the worker-pool trace observations. -/

theorem startEvents_append {C : Type} (t1 t2 : List (PEvent C)) :
    startEvents (t1 ++ t2) = startEvents t1 ++ startEvents t2 := by
  induction t1 with
  | nil => rfl
  | cons a t ih => cases a <;> simp [startEvents, ih]

theorem startEvents_of_starts {C : Type} (cfg : C) (l : List Nat) :
    startEvents (l.map (fun i => PEvent.start i cfg)) =
      l.map (fun i => (i, cfg)) := by
  induction l with
  | nil => rfl
  | cons a t ih => simp [startEvents, ih]

theorem startEvents_of_joins {C : Type} (l : List Nat) :
    startEvents ((l.map (fun i => PEvent.join i)) : List (PEvent C)) = [] := by
  induction l with
  | nil => rfl
  | cons a t ih => simp [startEvents, ih]

theorem joinIds_of_starts {C : Type} (cfg : C) (l : List Nat) :
    joinIds (l.map (fun i => PEvent.start i cfg)) = [] := by
  induction l with
  | nil => rfl
  | cons a t ih => simp [joinIds, ih]

theorem joinIds_of_joins {C : Type} (l : List Nat) :
    joinIds ((l.map (fun i => PEvent.join i)) : List (PEvent C)) = l := by
  induction l with
  | nil => rfl
  | cons a t ih => simp [joinIds, ih]

/-- C9: for every `num_workers = n ≥ 1`, `main` launches exactly n worker
processes; every launched process is constructed from the identical
parsed configuration; no worker number is ever started twice (no
restarts); and the trace splits into a launch phase containing no join
followed by a join phase containing no launch, whose joins cover exactly
the launched worker numbers — `main` blocks joining every launched
worker before returning. -/
theorem C9_worker_pool_launch_join {C : Type} (n : Nat) (cfg : C)
    (_hn : 1 ≤ n) :
    (startEvents (mainRun n cfg)).length = n ∧
    (∀ p ∈ startEvents (mainRun n cfg), p.2 = cfg) ∧
    ((startEvents (mainRun n cfg)).map Prod.fst).Nodup ∧
    (∃ t1 t2 : List (PEvent C), mainRun n cfg = t1 ++ t2 ∧
      joinIds t1 = [] ∧ startEvents t2 = [] ∧
      joinIds t2 = (startEvents (mainRun n cfg)).map Prod.fst) := by
  have hstart : startEvents (mainRun n cfg) =
      (List.range n).map (fun i => (i, cfg)) := by
    rw [mainRun, startEvents_append, startEvents_of_starts,
      startEvents_of_joins, List.append_nil]
  have hfst : ((List.range n).map (fun i => ((i, cfg) : Nat × C))).map Prod.fst =
      List.range n := by
    rw [List.map_map]
    exact List.map_id (List.range n)
  refine ⟨?_, ?_, ?_, ?_⟩
  · rw [hstart, List.length_map, List.length_range]
  · rw [hstart]
    intro p hp
    rcases List.mem_map.mp hp with ⟨i, _, rfl⟩
    rfl
  · rw [hstart, hfst]
    exact List.nodup_range n
  · refine ⟨(List.range n).map (fun i => PEvent.start i cfg),
      (List.range n).map (fun i => PEvent.join i), rfl,
      joinIds_of_starts cfg _, startEvents_of_joins _, ?_⟩
    rw [joinIds_of_joins, hstart, hfst]

/-- C9 witness: with two workers and the parsed configuration modelled as
the value 37, `main` starts workers 0 and 1 from that configuration and
then joins both. -/
theorem C9_worker_pool_launch_join_witness :
    (startEvents (mainRun 2 (37 : Nat))).length = 2 ∧
    (∀ p ∈ startEvents (mainRun 2 (37 : Nat)), p.2 = 37) ∧
    ((startEvents (mainRun 2 (37 : Nat))).map Prod.fst).Nodup ∧
    (∃ t1 t2 : List (PEvent Nat), mainRun 2 (37 : Nat) = t1 ++ t2 ∧
      joinIds t1 = [] ∧ startEvents t2 = [] ∧
      joinIds t2 = (startEvents (mainRun 2 (37 : Nat))).map Prod.fst) :=
  C9_worker_pool_launch_join 2 37 (by decide)

/-- Invariant of the consume loop: if the buffer holds at most
`batch_size + 1` records and every batch sent so far is empty (a retry
re-send) or of size exactly `batch_size + 1`, then both facts still hold
after running the loop on any further records. -/
theorem consumeRun_invariant (oracle : Nat → Nat) (N att : Nat) :
    ∀ (rs : List Nat) (s : CState),
      s.messages.length ≤ N + 1 →
      (∀ b ∈ sentBatches s.trace, b = [] ∨ b.length = N + 1) →
      (consumeRun oracle N att rs s).1.messages.length ≤ N + 1 ∧
      ∀ b ∈ sentBatches ((consumeRun oracle N att rs s).1).trace,
        b = [] ∨ b.length = N + 1
  | [], s, hs, ht => ⟨hs, ht⟩
  | m :: ms, s, hs, ht => by
      by_cases hlen : s.messages.length ≤ N
      · have he : consumeRun oracle N att (m :: ms) s =
            consumeRun oracle N att ms { s with messages := s.messages ++ [m] } := by
          simp [consumeRun, hlen]
        rw [he]
        exact consumeRun_invariant oracle N att ms
          { s with messages := s.messages ++ [m] }
          (by simp; omega) (by simpa using ht)
      · have hlen2 : N < s.messages.length := Nat.not_le.mp hlen
        cases att with
        | zero =>
            have he : consumeRun oracle N 0 (m :: ms) s = (s, false) := by
              simp [consumeRun, hlen, retrySend]
            rw [he]
            exact ⟨hs, ht⟩
        | succ n =>
            rcases hr : retrySend oracle (n + 1) s with ⟨s1, c⟩
            have hm1 : s1.messages = [] := by
              have hx := retrySend_messages oracle (n + 1) s (by omega)
              rw [hr] at hx
              exact hx
            have hb1 : ∀ b ∈ sentBatches s1.trace, b = [] ∨ b.length = N + 1 := by
              intro b hb
              have hx := retrySend_sentBatches oracle (n + 1) s b
                (by rw [hr]; exact hb)
              rcases hx with h | h | h
              · exact ht b h
              · right
                rw [h]
                omega
              · exact Or.inl h
            cases c with
            | true =>
                have he : consumeRun oracle N (n + 1) (m :: ms) s =
                    consumeRun oracle N (n + 1) ms s1 := by
                  simp [consumeRun, hlen, hr]
                rw [he]
                exact consumeRun_invariant oracle N (n + 1) ms s1
                  (by simp [hm1]) hb1
            | false =>
                have he : consumeRun oracle N (n + 1) (m :: ms) s = (s1, false) := by
                  simp [consumeRun, hlen, hr]
                rw [he]
                exact ⟨by simp [hm1], hb1⟩

/-- C10: from any reachable state of the consume loop — one whose buffer
holds at most `batch_size + 1` records and whose previously sent batches
are either retry re-sends of the cleared buffer (empty) or full
dispatches of exactly `batch_size + 1` records, as holds at `consume`'s
start — running the loop preserves both bounds: the buffer never exceeds
`batch_size + 1` records, every nonempty batch handed to `writeToHec`
has exactly `batch_size + 1` records, and whenever the loop dispatches
(`len(self.messages) > batch_size`) the buffer holds exactly
`batch_size + 1` records. -/
theorem C10_buffer_bound_invariant (oracle : Nat → Nat) (N att : Nat)
    (rs : List Nat) (s : CState) (hs : s.messages.length ≤ N + 1)
    (ht : ∀ b ∈ sentBatches s.trace, b = [] ∨ b.length = N + 1) :
    ((consumeRun oracle N att rs s).1.messages.length ≤ N + 1 ∧
     ∀ b ∈ sentBatches ((consumeRun oracle N att rs s).1).trace,
       b = [] ∨ b.length = N + 1) ∧
    (N < s.messages.length → s.messages.length = N + 1) :=
  ⟨consumeRun_invariant oracle N att rs s hs ht, fun _ => by omega⟩

/-- C10 witness: the invariant instantiated at `batch_size = 1`, records
10, 20, 30 and the loop's start state. -/
theorem C10_buffer_bound_invariant_witness :
    ((consumeRun okOracle 1 5 [10, 20, 30] initState).1.messages.length ≤ 2 ∧
     ∀ b ∈ sentBatches ((consumeRun okOracle 1 5 [10, 20, 30] initState).1).trace,
       b = [] ∨ b.length = 2) ∧
    (1 < initState.messages.length → initState.messages.length = 2) :=
  C10_buffer_bound_invariant okOracle 1 5 [10, 20, 30] initState
    (by decide) (by decide)

/-! Lemmas about the offset-aware model, leading to the offset-commit
claim: per-call behavior of `sendToSplunkO`, preservation of the
offset-safety predicate `goodLog` by every send event, and the loop
invariant. -/

theorem sendToSplunkO_spec (oracle : Nat → Nat) (s : OState) :
    (sendToSplunkO oracle s).1.log = s.log ++ [(s.messages, oracle s.sends)] ∧
    (oracle s.sends = 200 →
      (sendToSplunkO oracle s).2 = true ∧
      (sendToSplunkO oracle s).1.committedPos =
        (if s.consumer_started then s.sessionPos else s.committedPos)) ∧
    (oracle s.sends ≠ 200 →
      (sendToSplunkO oracle s).2 = false ∧
      (sendToSplunkO oracle s).1.committedPos = s.committedPos) := by
  unfold sendToSplunkO
  dsimp only
  split <;> split <;> simp_all

theorem sendToSplunkO_up_eq (oracle : Nat → Nat) (t : OState)
    (h1 : t.consumer_started = true) :
    sendToSplunkO oracle t =
      (if oracle t.sends = 200 then
        ({ messages := [], consumer_started := true, sends := t.sends + 1,
           sessionPos := t.sessionPos, committedPos := t.sessionPos,
           log := t.log ++ [(t.messages, oracle t.sends)] }, true)
      else
        ({ messages := [], consumer_started := false, sends := t.sends + 1,
           sessionPos := t.sessionPos, committedPos := t.committedPos,
           log := t.log ++ [(t.messages, oracle t.sends)] }, false)) := by
  unfold sendToSplunkO
  simp only [h1]
  split <;> simp_all

theorem sendToSplunkO_down_eq (oracle : Nat → Nat) (t : OState)
    (h1 : t.consumer_started = false) :
    sendToSplunkO oracle t =
      (if oracle t.sends = 200 then
        ({ messages := [], consumer_started := true, sends := t.sends + 1,
           sessionPos := t.committedPos, committedPos := t.committedPos,
           log := t.log ++ [(t.messages, oracle t.sends)] }, true)
      else
        ({ messages := [], consumer_started := false, sends := t.sends + 1,
           sessionPos := t.committedPos, committedPos := t.committedPos,
           log := t.log ++ [(t.messages, oracle t.sends)] }, false)) := by
  unfold sendToSplunkO
  simp only [h1]
  split <;> simp_all

theorem inAccepted_append (lg e : List (List Nat × Nat)) (p : Nat)
    (h : inAccepted lg p) : inAccepted (lg ++ e) p := by
  rcases h with ⟨B, hB, hp⟩
  exact ⟨B, List.mem_append_left e hB, hp⟩

theorem goodLog_reject (lg : List (List Nat × Nat)) (c N σ : Nat)
    (hg : goodLog lg c N) :
    goodLog (lg ++ [(List.range' c (N + 1), σ)]) c N := by
  constructor
  · intro p hp hr
    rcases hr with ⟨B, σ2, hmem, hσ2, hpB⟩
    rcases List.mem_append.mp hmem with h | h
    · exact inAccepted_append _ _ p (hg.1 p hp ⟨B, σ2, h, hσ2, hpB⟩)
    · have heq := List.mem_singleton.mp h
      have hB : B = List.range' c (N + 1) := congrArg Prod.fst heq
      rw [hB] at hpB
      have := (List.mem_range'_1.mp hpB).1
      omega
  · intro B σ2 hmem hσ2
    rcases List.mem_append.mp hmem with h | h
    · rcases hg.2 B σ2 h hσ2 with hacc | heq
      · exact Or.inl fun p hp => inAccepted_append _ _ p (hacc p hp)
      · exact Or.inr heq
    · exact Or.inr (congrArg Prod.fst (List.mem_singleton.mp h))

theorem goodLog_accept_full (lg : List (List Nat × Nat)) (c N : Nat)
    (hg : goodLog lg c N) :
    goodLog (lg ++ [(List.range' c (N + 1), 200)]) (c + N + 2) N := by
  have hnew : ∀ p ∈ List.range' c (N + 1),
      inAccepted (lg ++ [(List.range' c (N + 1), 200)]) p := fun p hp =>
    ⟨List.range' c (N + 1),
      List.mem_append_right lg (List.mem_singleton.mpr rfl), hp⟩
  constructor
  · intro p hp hr
    rcases hr with ⟨B, σ2, hmem, hσ2, hpB⟩
    rcases List.mem_append.mp hmem with h | h
    · rcases hg.2 B σ2 h hσ2 with hacc | heq
      · exact inAccepted_append _ _ p (hacc p hpB)
      · exact hnew p (heq ▸ hpB)
    · have heq := List.mem_singleton.mp h
      have : σ2 = 200 := congrArg Prod.snd heq
      exact absurd this hσ2
  · intro B σ2 hmem hσ2
    rcases List.mem_append.mp hmem with h | h
    · left
      rcases hg.2 B σ2 h hσ2 with hacc | heq
      · exact fun p hp => inAccepted_append _ _ p (hacc p hp)
      · exact fun p hp => hnew p (heq ▸ hp)
    · have heq := List.mem_singleton.mp h
      have : σ2 = 200 := congrArg Prod.snd heq
      exact absurd this hσ2

theorem goodLog_accept_nil (lg : List (List Nat × Nat)) (c N : Nat)
    (hg : goodLog lg c N) :
    goodLog (lg ++ [(([] : List Nat), 200)]) c N := by
  constructor
  · intro p hp hr
    rcases hr with ⟨B, σ2, hmem, hσ2, hpB⟩
    rcases List.mem_append.mp hmem with h | h
    · exact inAccepted_append _ _ p (hg.1 p hp ⟨B, σ2, h, hσ2, hpB⟩)
    · have heq := List.mem_singleton.mp h
      have : σ2 = 200 := congrArg Prod.snd heq
      exact absurd this hσ2
  · intro B σ2 hmem hσ2
    rcases List.mem_append.mp hmem with h | h
    · rcases hg.2 B σ2 h hσ2 with hacc | heq
      · exact Or.inl fun p hp => inAccepted_append _ _ p (hacc p hp)
      · exact Or.inr heq
    · have heq := List.mem_singleton.mp h
      have : σ2 = 200 := congrArg Prod.snd heq
      exact absurd this hσ2

theorem goodLog_reject_nil (lg : List (List Nat × Nat)) (c N σ : Nat)
    (hg : goodLog lg c N) :
    goodLog (lg ++ [(([] : List Nat), σ)]) c N := by
  constructor
  · intro p hp hr
    rcases hr with ⟨B, σ2, hmem, hσ2, hpB⟩
    rcases List.mem_append.mp hmem with h | h
    · exact inAccepted_append _ _ p (hg.1 p hp ⟨B, σ2, h, hσ2, hpB⟩)
    · have heq := List.mem_singleton.mp h
      have hB : B = [] := congrArg Prod.fst heq
      rw [hB] at hpB
      exact absurd hpB (List.not_mem_nil p)
  · intro B σ2 hmem hσ2
    rcases List.mem_append.mp hmem with h | h
    · rcases hg.2 B σ2 h hσ2 with hacc | heq
      · exact Or.inl fun p hp => inAccepted_append _ _ p (hacc p hp)
      · exact Or.inr heq
    · left
      have heq := List.mem_singleton.mp h
      have hB : B = [] := congrArg Prod.fst heq
      rw [hB]
      intro p hp
      exact absurd hp (List.not_mem_nil p)

theorem sendToSplunkO_dispatch (oracle : Nat → Nat) (N : Nat) (t : OState)
    (h1 : t.consumer_started = true)
    (h2 : t.messages = List.range' t.committedPos (N + 1))
    (h3 : t.sessionPos = t.committedPos + N + 2)
    (h4 : goodLog t.log t.committedPos N) :
    ((sendToSplunkO oracle t).2 = true → loopInv N (sendToSplunkO oracle t).1) ∧
    ((sendToSplunkO oracle t).2 = false → downInv N (sendToSplunkO oracle t).1) := by
  rw [sendToSplunkO_up_eq oracle t h1]
  by_cases hs : oracle t.sends = 200
  · rw [if_pos hs]
    refine ⟨fun _ => ?_, fun hf => by simp at hf⟩
    unfold loopInv
    refine ⟨rfl, by simp, le_refl _, by simp, ?_⟩
    show goodLog (t.log ++ [(t.messages, oracle t.sends)]) t.sessionPos N
    rw [h2, h3, hs]
    exact goodLog_accept_full t.log t.committedPos N h4
  · rw [if_neg hs]
    refine ⟨fun ht => by simp at ht, fun _ => ?_⟩
    unfold downInv
    refine ⟨rfl, rfl, ?_⟩
    show goodLog (t.log ++ [(t.messages, oracle t.sends)]) t.committedPos N
    rw [h2]
    exact goodLog_reject t.log t.committedPos N (oracle t.sends) h4

theorem sendToSplunkO_recover (oracle : Nat → Nat) (N : Nat) (s : OState)
    (hd : downInv N s) :
    ((sendToSplunkO oracle s).2 = true → loopInv N (sendToSplunkO oracle s).1) ∧
    ((sendToSplunkO oracle s).2 = false → downInv N (sendToSplunkO oracle s).1) := by
  obtain ⟨hd1, hd2, hd3⟩ := hd
  rw [sendToSplunkO_down_eq oracle s hd1]
  by_cases hs : oracle s.sends = 200
  · rw [if_pos hs]
    refine ⟨fun _ => ?_, fun hf => by simp at hf⟩
    unfold loopInv
    refine ⟨rfl, by simp, le_refl _, by simp, ?_⟩
    show goodLog (s.log ++ [(s.messages, oracle s.sends)]) s.committedPos N
    rw [hd2, hs]
    exact goodLog_accept_nil s.log s.committedPos N hd3
  · rw [if_neg hs]
    refine ⟨fun ht => by simp at ht, fun _ => ?_⟩
    unfold downInv
    refine ⟨rfl, rfl, ?_⟩
    show goodLog (s.log ++ [(s.messages, oracle s.sends)]) s.committedPos N
    rw [hd2]
    exact goodLog_reject_nil s.log s.committedPos N (oracle s.sends) hd3

theorem retrySendO_recover (oracle : Nat → Nat) (N : Nat) :
    ∀ (att : Nat) (s : OState), downInv N s →
      ((retrySendO oracle att s).2 = true → loopInv N (retrySendO oracle att s).1) ∧
      ((retrySendO oracle att s).2 = false →
        goodLog (retrySendO oracle att s).1.log
          (retrySendO oracle att s).1.committedPos N)
  | 0, s, hd => ⟨fun ht => by simp [retrySendO] at ht, fun _ => hd.2.2⟩
  | 1, s, hd => by
      have h := sendToSplunkO_recover oracle N s hd
      exact ⟨h.1, fun hf => (h.2 hf).2.2⟩
  | n + 2, s, hd => by
      rcases hr : sendToSplunkO oracle s with ⟨s1, c⟩
      have h := sendToSplunkO_recover oracle N s hd
      rw [hr] at h
      cases c with
      | true =>
          have he : retrySendO oracle (n + 2) s = (s1, true) := by
            simp [retrySendO, hr]
          rw [he]
          exact ⟨fun _ => h.1 rfl, fun hf => by simp at hf⟩
      | false =>
          have he : retrySendO oracle (n + 2) s = retrySendO oracle (n + 1) s1 := by
            simp [retrySendO, hr]
          rw [he]
          exact retrySendO_recover oracle N (n + 1) s1 (h.2 rfl)

theorem retrySendO_dispatch (oracle : Nat → Nat) (N att : Nat) (t : OState)
    (h1 : t.consumer_started = true)
    (h2 : t.messages = List.range' t.committedPos (N + 1))
    (h3 : t.sessionPos = t.committedPos + N + 2)
    (h4 : goodLog t.log t.committedPos N) :
    ((retrySendO oracle att t).2 = true → loopInv N (retrySendO oracle att t).1) ∧
    ((retrySendO oracle att t).2 = false →
      goodLog (retrySendO oracle att t).1.log
        (retrySendO oracle att t).1.committedPos N) := by
  cases att with
  | zero => exact ⟨fun ht => by simp [retrySendO] at ht, fun _ => h4⟩
  | succ n =>
      cases n with
      | zero =>
          have h := sendToSplunkO_dispatch oracle N t h1 h2 h3 h4
          exact ⟨h.1, fun hf => (h.2 hf).2.2⟩
      | succ n2 =>
          rcases hr : sendToSplunkO oracle t with ⟨s1, c⟩
          have h := sendToSplunkO_dispatch oracle N t h1 h2 h3 h4
          rw [hr] at h
          cases c with
          | true =>
              have he : retrySendO oracle (n2 + 2) t = (s1, true) := by
                simp [retrySendO, hr]
              rw [he]
              exact ⟨fun _ => h.1 rfl, fun hf => by simp at hf⟩
          | false =>
              have he : retrySendO oracle (n2 + 2) t = retrySendO oracle (n2 + 1) s1 := by
                simp [retrySendO, hr]
              rw [he]
              exact retrySendO_recover oracle N (n2 + 1) s1 (h.2 rfl)

theorem consumeRunO_inv (oracle : Nat → Nat) (N att : Nat) :
    ∀ (fuel : Nat) (s : OState), loopInv N s →
      goodLog (consumeRunO oracle N att fuel s).1.log
        (consumeRunO oracle N att fuel s).1.committedPos N
  | 0, _, h => h.2.2.2.2
  | fuel + 1, s, h => by
      obtain ⟨hst, hmsg, hle, hbound, hlog⟩ := h
      have hk : s.messages.length = s.sessionPos - s.committedPos := by
        rw [hmsg]
        simp
      by_cases hlen : s.messages.length ≤ N
      · have he : consumeRunO oracle N att (fuel + 1) s =
            consumeRunO oracle N att fuel
              { s with sessionPos := s.sessionPos + 1,
                       messages := s.messages ++ [s.sessionPos] } := by
          simp [consumeRunO, hlen]
        rw [he]
        apply consumeRunO_inv oracle N att fuel
        refine ⟨hst, ?_, by dsimp only; omega, by dsimp only; omega, hlog⟩
        dsimp only
        rw [hmsg]
        have h5 : s.sessionPos + 1 - s.committedPos =
            (s.sessionPos - s.committedPos) + 1 := by omega
        have h6 : List.range' s.committedPos ((s.sessionPos - s.committedPos) + 1) =
            List.range' s.committedPos (s.sessionPos - s.committedPos) ++
              [s.committedPos + 1 * (s.sessionPos - s.committedPos)] :=
          List.range'_concat _ _
        have h7 : s.committedPos + 1 * (s.sessionPos - s.committedPos) =
            s.sessionPos := by omega
        rw [h5, h6, h7]
      · have hfull : s.messages.length = N + 1 := by omega
        have hmsg2 : ({ s with sessionPos := s.sessionPos + 1 } : OState).messages =
            List.range' ({ s with sessionPos := s.sessionPos + 1 } : OState).committedPos
              (N + 1) := by
          dsimp only
          rw [hmsg]
          congr 1
          omega
        have hsp : ({ s with sessionPos := s.sessionPos + 1 } : OState).sessionPos =
            ({ s with sessionPos := s.sessionPos + 1 } : OState).committedPos + N + 2 := by
          dsimp only
          omega
        have hrd := retrySendO_dispatch oracle N att
          { s with sessionPos := s.sessionPos + 1 } hst hmsg2 hsp hlog
        rcases hr : retrySendO oracle att
            { s with sessionPos := s.sessionPos + 1 } with ⟨s1, c⟩
        rw [hr] at hrd
        cases c with
        | true =>
            have he : consumeRunO oracle N att (fuel + 1) s =
                consumeRunO oracle N att fuel s1 := by
              simp [consumeRunO, hlen, hr]
            rw [he]
            exact consumeRunO_inv oracle N att fuel s1 (hrd.1 rfl)
        | false =>
            have he : consumeRunO oracle N att (fuel + 1) s = (s1, false) := by
              simp [consumeRunO, hlen, hr]
            rw [he]
            exact hrd.2 rfl

/-- C1: offsets are committed for a batch iff that batch's `writeToHec`
call returned status 200, and no execution commits the offsets of a
rejected batch's records without that data having been accepted.
Per call (first conjunct, over every state): the call appends exactly
one send record to the log before any commit takes effect; on status 200
it returns normally and commits the current consumer instance's position
(on a freshly re-acquired instance that position equals the already
committed one, so the commit re-commits the old position); on any other
status it raises and leaves the committed position untouched — never a
commit on Rejected, and a commit only as part of the very call whose
send returned.  Globally (second conjunct): in every run of the consume
loop, every record position that was ever part of a rejected batch and
whose offset is committed also belongs to an accepted batch — a rejected
send stops the consumer, the retried (empty) send commits on a freshly
re-acquired session resuming from the last committed offset, and the
rejected records are redelivered and re-sent before their offsets can be
committed. -/
theorem C1_commit_iff_accepted (oracle : Nat → Nat) (N att fuel : Nat) :
    (∀ s : OState,
      (sendToSplunkO oracle s).1.log = s.log ++ [(s.messages, oracle s.sends)] ∧
      (oracle s.sends = 200 →
        (sendToSplunkO oracle s).2 = true ∧
        (sendToSplunkO oracle s).1.committedPos =
          (if s.consumer_started then s.sessionPos else s.committedPos)) ∧
      (oracle s.sends ≠ 200 →
        (sendToSplunkO oracle s).2 = false ∧
        (sendToSplunkO oracle s).1.committedPos = s.committedPos)) ∧
    (∀ p, p < (consumeRunO oracle N att fuel initOState).1.committedPos →
      inRejected (consumeRunO oracle N att fuel initOState).1.log p →
      inAccepted (consumeRunO oracle N att fuel initOState).1.log p) := by
  constructor
  · exact sendToSplunkO_spec oracle
  · have hinit : loopInv N initOState := by
      refine ⟨rfl, rfl, le_refl _, by dsimp [initOState]; omega, ?_, ?_⟩
      · intro p hp _
        exact absurd hp (Nat.not_lt_zero p)
      · intro B σ hmem _
        exact absurd hmem (List.not_mem_nil (B, σ))
    exact fun p hp hr =>
      (consumeRunO_inv oracle N att fuel initOState hinit).1 p hp hr

/-- C1 witness: with the endpoint that rejects the first call and accepts
all later ones, the first `sendToSplunkO` call (status 500) raises and
leaves the committed position untouched; a call whose status is 200
returns normally and commits the session position; and in the concrete
run with `batch_size = 0`, two retry attempts and four consumed records
— where the batch `[0]` is rejected, the empty retry send is accepted
and commits on the re-acquired session, and the redelivered record 0 is
re-sent and accepted — the committed record 0 is in an accepted batch. -/
theorem C1_commit_iff_accepted_witness :
    ((sendToSplunkO flipOracle initOState).1.log =
        initOState.log ++ [(initOState.messages, flipOracle initOState.sends)] ∧
      ((sendToSplunkO flipOracle initOState).2 = false ∧
       (sendToSplunkO flipOracle initOState).1.committedPos =
         initOState.committedPos)) ∧
    ((sendToSplunkO flipOracle { initOState with sends := 1 }).2 = true ∧
     (sendToSplunkO flipOracle { initOState with sends := 1 }).1.committedPos =
       (if ({ initOState with sends := 1 } : OState).consumer_started
        then ({ initOState with sends := 1 } : OState).sessionPos
        else ({ initOState with sends := 1 } : OState).committedPos)) ∧
    (0 < (consumeRunO flipOracle 0 2 4 initOState).1.committedPos ∧
     inRejected (consumeRunO flipOracle 0 2 4 initOState).1.log 0 ∧
     inAccepted (consumeRunO flipOracle 0 2 4 initOState).1.log 0) := by
  refine ⟨⟨?_, ?_⟩, ?_, ?_, ?_, ?_⟩
  · exact ((C1_commit_iff_accepted flipOracle 0 2 4).1 initOState).1
  · exact ((C1_commit_iff_accepted flipOracle 0 2 4).1 initOState).2.2 (by decide)
  · exact ((C1_commit_iff_accepted flipOracle 0 2 4).1
      { initOState with sends := 1 }).2.1 (by decide)
  · decide
  · exact ⟨[0], 500, by decide, by decide, by decide⟩
  · exact (C1_commit_iff_accepted flipOracle 0 2 4).2 0 (by decide)
      ⟨[0], 500, by decide, by decide, by decide⟩
